import Mathlib

/-!
Verification development for the SQANTI-SIM transcript-selection and
expression-assignment engine (`src/sim_preparatory.py`, `src/pb_ont_sim.py`,
`sqanti_sim.py`).  Python functions are shallowly embedded as executable Lean
definitions: Python sets become lists used only through membership, Python
dicts become association lists, Python's per-category `random.Random(seed)`
shuffle and numpy's seeded draws become deterministic functions of the seed
(Mersenne-Twister streams are pure functions of the seed; the exact stream
values are abstracted by a seeded generator / explicit draw lists), and
`pandas` NaN propagation with `fillna(0)` becomes `Option` with `getD 0`.
-/

/-- Linear congruential step: the deterministic pseudo-random generator used to
model Python's seeded Mersenne-Twister streams (`random.Random(seed)`,
`numpy.random.seed`).  Only determinism-from-seed and being a permutation
matter for the verified properties, not the exact stream. -/
def lcg (n : ℕ) : ℕ := (1103515245 * n + 12345) % 2147483648

/-- Iterated generator steps. -/
def lcgIter : ℕ → ℕ → ℕ
  | 0, s => s
  | k + 1, s => lcg (lcgIter k s)

/-- Fuelled Fisher-Yates-style shuffle: repeatedly extract the element at a
seed-derived index.  Models the in-place `random.Random(seed).shuffle(lst)` of
`target_trans` (fresh generator per call, seeded with the same value). -/
def shuffleAux {α : Type} : ℕ → ℕ → List α → List α
  | 0, _, _ => []
  | _ + 1, _, [] => []
  | fuel + 1, g, x :: xs =>
    match (x :: xs).get? (g % (xs.length + 1)) with
    | some a => a :: shuffleAux fuel (lcg g) ((x :: xs).eraseIdx (g % (xs.length + 1)))
    | none => []

/-- Seed-determined shuffle of a list. -/
def shuffleList {α : Type} (g : ℕ) (l : List α) : List α :=
  shuffleAux l.length g l

/-- Python `set.add`: membership-preserving insert (no duplicate added). -/
def addMem (x : String) (l : List String) : List String :=
  if x ∈ l then l else x :: l

/-- One row of the transcript index file, as read by `target_trans`
(`line_split[0..4]`: transcript_id, gene_id, structural_category, ref_gene,
ref_transcript). -/
structure IdxRow where
  transId : String
  geneId : String
  sc : String
  refG : String
  refT : String
deriving DecidableEq

/-- Lookup in the per-category quota dictionary (`counts[SC]`); the dictionary
is a `defaultdict(lambda: 0)`, so a missing key reads as `0`. -/
def getCount (c : List (String × ℤ)) (k : String) : ℤ :=
  match c with
  | [] => 0
  | p :: t => if p.1 = k then p.2 else getCount t k

/-- `counts[SC] -= 1`: decrement the entry of key `k` in place. -/
def decCount (c : List (String × ℤ)) (k : String) : List (String × ℤ) :=
  c.map (fun p => if p.1 = k then (p.1, p.2 - 1) else p)

/-- The mutable state of `target_trans`: the four sets and the quota dict. -/
structure SelState where
  targetTrans : List String
  targetGenes : List String
  refTrans : List String
  refGenes : List String
  counts : List (String × ℤ)
deriving DecidableEq

/-- Structural categories handled by the first admissibility branch. -/
def fsmCats : List String := ["full-splice_match", "incomplete-splice_match"]

/-- Structural categories handled by the second admissibility branch. -/
def nicCats : List String := ["novel_in_catalog", "novel_not_in_catalog", "genic_intron"]

/-- Structural categories handled by the composite-reference branch. -/
def fusCats : List String := ["fusion", "antisense", "genic"]

/-- Python `"a_b".split("_")` on the composite reference-gene field. -/
def splitUnderscore (s : String) : List String := s.splitOn "_"

/-- Processing of one candidate row inside the per-category loop of
`target_trans` (`sim_preparatory.py` lines 71-137): dispatch on the row's
structural category, test the category-specific admissibility rule, and on
admission update the target/reference sets and decrement the quota. -/
def stepRow (st : SelState) (r : IdxRow) : SelState :=
  if r.sc ∈ fsmCats ∧ 0 < getCount st.counts r.sc then
    if r.transId ∉ st.refTrans ∧ r.geneId ∉ st.refGenes ∧ r.refT ∉ st.targetTrans then
      { st with targetTrans := addMem r.transId st.targetTrans,
                targetGenes := addMem r.geneId st.targetGenes,
                refTrans := addMem r.refT st.refTrans,
                counts := decCount st.counts r.sc }
    else st
  else if r.sc ∈ nicCats ∧ 0 < getCount st.counts r.sc then
    if r.transId ∉ st.refTrans ∧ r.geneId ∉ st.refGenes ∧
        r.geneId ∉ st.targetGenes ∧ r.refG ∉ st.targetGenes then
      { st with targetTrans := addMem r.transId st.targetTrans,
                targetGenes := addMem r.geneId st.targetGenes,
                refGenes := addMem r.refG st.refGenes,
                counts := decCount st.counts r.sc }
    else st
  else if r.sc ∈ fusCats ∧ 0 < getCount st.counts r.sc then
    if r.transId ∉ st.refTrans ∧ r.geneId ∉ st.refGenes ∧ r.geneId ∉ st.targetGenes then
      if (splitUnderscore r.refG).all (fun i => i ∉ st.targetGenes) then
        { st with targetTrans := addMem r.transId st.targetTrans,
                  targetGenes := addMem r.geneId st.targetGenes,
                  refGenes := (splitUnderscore r.refG).foldl (fun acc i => addMem i acc) st.refGenes,
                  counts := decCount st.counts r.sc }
      else st
    else st
  else if r.sc = "intergenic" ∧ 0 < getCount st.counts r.sc then
    if r.transId ∉ st.refTrans ∧ r.geneId ∉ st.refGenes ∧ r.geneId ∉ st.targetGenes then
      { st with targetTrans := addMem r.transId st.targetTrans,
                targetGenes := addMem r.geneId st.targetGenes,
                counts := decCount st.counts r.sc }
    else st
  else st

/-- The inner `for trans in SCtrans` loop of `target_trans`, including the
`if counts[SC] <= 0: break` early exit after each row. -/
def processCat : SelState → List IdxRow → SelState
  | st, [] => st
  | st, r :: rs =>
    let st' := stepRow st r
    if getCount st'.counts r.sc ≤ 0 then st' else processCat st' rs

/-- The outer `for SC in counts` loop of `target_trans`: for each dictionary
key with a positive quota, shuffle that category's candidates with the seed and
scan them. -/
def selectCats (rows : List IdxRow) (seed : ℕ) : SelState → List String → SelState
  | st, [] => st
  | st, k :: ks =>
    selectCats rows seed
      (if 0 < getCount st.counts k then
        processCat st (shuffleList seed (rows.filter (fun r => r.sc = k)))
      else st) ks

/-- Initial state of `target_trans`: all four sets empty, caller's quota dict. -/
def initState (counts : List (String × ℤ)) : SelState :=
  ⟨[], [], [], [], counts⟩

/-- The category-selection phase of `target_trans` (lines 44-140): returns the
final mutable state (target/reference sets and the in-place mutated quotas). -/
def targetTransSel (rows : List IdxRow) (counts : List (String × ℤ)) (seed : ℕ) : SelState :=
  selectCats rows seed (initState counts) (counts.map Prod.fst)

/-- The `for trans in trans_by_gene[gene]` loop of `target_trans`
(lines 144-148), reproduced with Python's iterator semantics: the loop index
advances after each yield even when `list.remove` shrinks the list, so the
element following a removed one is skipped.  `fuel` bounds the iteration count
(the initial length always suffices, exactly as in Python). -/
def iterRemoveAux (target : List String) : ℕ → List IdxRow → ℕ → List IdxRow
  | 0, lst, _ => lst
  | fuel + 1, lst, k =>
    match lst.get? k with
    | none => lst
    | some x =>
      if x.transId ∈ target then iterRemoveAux target fuel (lst.erase x) (k + 1)
      else iterRemoveAux target fuel lst (k + 1)

/-- Run the removal loop over one gene's transcript list. -/
def iterRemove (target : List String) (lst : List IdxRow) : List IdxRow :=
  iterRemoveAux target lst.length lst 0

/-- The whole-gene signal of `target_trans` (lines 142-148): `final_target`
aliases `target_trans`, and a gene id is added when the removal loop leaves its
transcript list empty. -/
def finalTargetSet (rows : List IdxRow) (target : List String) : List String :=
  target ++ ((rows.map (fun r => r.geneId)).dedup.filter
    (fun gene => (iterRemove target (rows.filter (fun r => r.geneId = gene))).length = 0))

/-- Python's `round()` on a rational value: round half to even (banker's
rounding), as used by `round(len(expr_distr)/2)` and by `round(x, 2)`. -/
def pyRound (q : ℚ) : ℤ :=
  if q - ⌊q⌋ < 1 / 2 then ⌊q⌋
  else if 1 / 2 < q - ⌊q⌋ then ⌊q⌋ + 1
  else if ⌊q⌋ % 2 = 0 then ⌊q⌋ else ⌊q⌋ + 1

/-- Python `round(x, 2)`: round to two decimal places, half to even. -/
def round2 (q : ℚ) : ℚ := (pyRound (q * 100) : ℚ) / 100

/-- Python `int()` on a rational: truncation toward zero. -/
def pyInt (q : ℚ) : ℤ := if 0 ≤ q then ⌊q⌋ else -⌊-q⌋

/-- Pandas elementwise division: `0/0` (and any `x/0`) yields NaN, modeled as
`none`; ordinary division yields the exact quotient. -/
def ratDivNA (a b : ℚ) : Option ℚ := if b = 0 then none else some (a / b)

/-- Pandas `Series.fillna(0)`: replace NaN with 0. -/
def fillna0 (o : Option ℚ) : ℚ := o.getD 0

/-- A row of the index table as read by the expression-assignment functions
(only the `transcript_id` and `sim_type` columns are consulted). -/
structure SimRow where
  transId : String
  simType : String
deriving DecidableEq

/-- `novel_trans`: transcript ids of the rows whose `sim_type` is `"novel"`,
in file order. -/
def novelIds (rows : List SimRow) : List String :=
  (rows.filter (fun r => r.simType = "novel")).map (fun r => r.transId)

/-- `known_trans` before truncation: all other rows' transcript ids. -/
def knownIds (rows : List SimRow) : List String :=
  (rows.filter (fun r => ¬ r.simType = "novel")).map (fun r => r.transId)

/-- Python slice `l[:k]` for a possibly negative `k`. -/
def pyTake {α : Type} (k : ℤ) (l : List α) : List α :=
  l.take (if 0 ≤ k then k.toNat else ((l.length : ℤ) + k).toNat)

/-- `known_trans` after `random.shuffle` and truncation to
`n_trans - len(novel_trans)` entries. -/
def knownSel (rows : List SimRow) (n_trans : ℕ) (g : ℕ) : List String :=
  pyTake ((n_trans : ℤ) - (novelIds rows).length) (shuffleList g (knownIds rows))

/-- The per-row `requested_tpm` expression of `create_expr_file_fixed_count`:
`round(1000000*c / (c*n_trans), 2)` with NaN (from `0/0`) turned into `0` by
`fillna(0)`. -/
def tpmFixed (c n : ℕ) : ℚ :=
  fillna0 ((ratDivNA (1000000 * (c : ℚ)) ((c : ℚ) * (n : ℚ))).map round2)

/-- One output row of `create_expr_file_fixed_count`: the `fixed_coverage`
closure plus the TPM column. -/
def fixedRow (tot : List String) (cov n : ℕ) (r : SimRow) : String × ℕ × ℚ :=
  let c := if r.transId ∈ tot then cov else 0
  (r.transId, c, tpmFixed c n)

/-- `create_expr_file_fixed_count` (`sim_preparatory.py` lines 269-319):
select all novel transcripts plus shuffled known transcripts up to `n_trans`
total, give each selected transcript coverage `read_count // n_trans`, and
fill the `requested_counts` / `requested_tpm` columns. -/
def fixedCountAssign (rows : List SimRow) (n_trans read_count g : ℕ) : List (String × ℕ × ℚ) :=
  rows.map (fixedRow (novelIds rows ++ knownSel rows n_trans g) (read_count / n_trans) n_trans)

/-- `[1 if n == 0 else n for n in draws]`: floor every draw at one. -/
def floorOne (l : List ℕ) : List ℕ := l.map (fun n => if n = 0 then 1 else n)

/-- The `nbinom_coverage` closure applied across all rows: a row in
`novel_trans` pops (from the end, Python `list.pop()`) the next novel draw, a
row in the truncated `known_trans` pops the next known draw, any other row
gets 0.  Popping from an exhausted list is an `IndexError`, modeled as
`none`. -/
def popAssign (novel known : List String) : List SimRow → List ℕ → List ℕ → Option (List (String × ℕ))
  | [], _, _ => some []
  | r :: rs, nbNov, nbKn =>
    if r.transId ∈ novel then
      match nbNov.getLast? with
      | none => none
      | some c => (popAssign novel known rs nbNov.dropLast nbKn).map
          (fun t => (r.transId, c) :: t)
    else if r.transId ∈ known then
      match nbKn.getLast? with
      | none => none
      | some c => (popAssign novel known rs nbNov nbKn.dropLast).map
          (fun t => (r.transId, c) :: t)
    else (popAssign novel known rs nbNov nbKn).map (fun t => (r.transId, 0) :: t)

/-- The per-row `requested_tpm` of the negative-binomial and sample modes:
`round(1000000*c / n_reads, 2)`, NaN filled with 0. -/
def tpmOf (c : ℕ) (nReads : ℚ) : ℚ :=
  fillna0 ((ratDivNA (1000000 * (c : ℚ)) nReads).map round2)

/-- `create_expr_file_nbinom` (`sim_preparatory.py` lines 322-376) with the
seeded numpy draws passed explicitly (`rawKnown`/`rawNovel` of the lengths
numpy was asked for): floor the draws at one, compute `n_reads` as the sum of
both floored lists, assign counts by popping, and fill the TPM column. -/
def nbinomAssign (rows : List SimRow) (n_trans g : ℕ) (rawKnown rawNovel : List ℕ) :
    Option (List (String × ℕ × ℚ)) :=
  let nbKn := floorOne rawKnown
  let nbNov := floorOne rawNovel
  let nReads : ℕ := nbKn.sum + nbNov.sum
  (popAssign (novelIds rows) (knownSel rows n_trans g) rows nbNov nbKn).map
    (fun l => l.map (fun p => (p.1, p.2, tpmOf p.2 (nReads : ℚ))))

/-- The assignment tail of `create_expr_file_sample` (`sim_preparatory.py`
lines 454-506) with the accept/reject-sampled expression lists passed
explicitly (`novel_expr` / `known_expr`, which the acceptance loops build at
the lengths of `novel_trans` and of the truncated `known_trans`): `n_reads`
is the sum of both lists, counts are assigned by the `sample_coverage`
popping closure — identical in shape to `nbinom_coverage` — and the TPM
column is `round(1000000*counts/n_reads, 2)` with NaN filled by 0. -/
def sampleAssign (rows : List SimRow) (n_trans g : ℕ) (novelExpr knownExpr : List ℕ) :
    Option (List (String × ℕ × ℚ)) :=
  let nReads : ℕ := novelExpr.sum + knownExpr.sum
  (popAssign (novelIds rows) (knownSel rows n_trans g) rows novelExpr knownExpr).map
    (fun l => l.map (fun p => (p.1, p.2, tpmOf p.2 (nReads : ℚ))))

/-- Stable insertion of a natural number into a sorted list (helper for the
model of Python `list.sort()`). -/
def insertOrd (a : ℕ) : List ℕ → List ℕ
  | [] => [a]
  | b :: bs => if a ≤ b then a :: b :: bs else b :: insertOrd a bs

/-- Model of Python `list.sort()` on the count distribution: stable ascending
insertion sort. -/
def sortNat (l : List ℕ) : List ℕ := l.foldr insertOrd []

/-- `statistics.median` on integer count data: middle element of the sorted
data for odd length, mean of the two middle elements for even length (`0` on
empty data, which the library would reject; never reached on the inputs
considered here). -/
def pyMedianNat (l : List ℕ) : ℚ :=
  let s := sortNat l
  let n := s.length
  if n % 2 = 1 then ((s.getD (n / 2) 0 : ℕ) : ℚ)
  else (((s.getD (n / 2 - 1) 0 : ℕ) : ℚ) + ((s.getD (n / 2) 0 : ℕ) : ℚ)) / 2

/-- `numpy.linspace(start, stop, num)` with the default inclusive endpoint. -/
def linspace (a b : ℚ) (num : ℕ) : List ℚ :=
  (List.range num).map (fun k => if num = 1 then a else a + k * ((b - a) / ((num : ℚ) - 1)))

/-- The acceptance-probability vector of `create_expr_file_sample`
(`sim_preparatory.py` lines 437-449): sort the empirical distribution, split it
at `round(len/2)`, take the `statistics.median` of each half, and concatenate
a flat `0.1` block, a `linspace(0.1, 0.9, int(mh2-mh1))` ramp, and a flat
`0.9` block. -/
def sampleProbList (expr : List ℕ) : List ℚ :=
  let s := sortNat expr
  let medPos := (pyRound ((s.length : ℚ) / 2)).toNat
  let mh1 := pyMedianNat (s.take medPos)
  let mh2 := pyMedianNat (s.drop medPos)
  let mn : ℚ := (s.headD 0 : ℕ)
  let mx : ℚ := (s.getLastD 0 : ℕ)
  List.replicate (pyInt (mh1 - mn)).toNat (1 / 10) ++
    linspace (1 / 10) (9 / 10) (pyInt (mh2 - mh1)).toNat ++
    List.replicate (pyInt (mx - mh2)).toNat (9 / 10)

/-- Python list indexing `l[i]` with an integer index: negative indices wrap
from the end; anything out of range is an `IndexError` (`none`). -/
def pyIndex {α : Type} (l : List α) (i : ℤ) : Option α :=
  if 0 ≤ i then l.get? i.toNat
  else if (-i).toNat ≤ l.length then l.get? (l.length - (-i).toNat) else none

/-- The probability looked up by the accept/reject loops of
`create_expr_file_sample` (lines 476-493) for a sampled count `s`:
`prob[s - min_expr]` with `min_expr = min(expr_distr) + 1`. -/
def probAtSample (expr : List ℕ) (s : ℕ) : Option ℚ :=
  let minExpr : ℤ := ((sortNat expr).headD 0 : ℕ) + 1
  pyIndex (sampleProbList expr) ((s : ℤ) - minExpr)

/-- The value stored in the `sim_counts` column after reconciliation.  The
specification describes two kinds of values: a realized non-negative count and
a sentinel `absent` distinct from `0`. -/
inductive SimCount where
  | val : ℕ → SimCount
  | absent : SimCount
deriving DecidableEq

/-- The reconciliation step shared by `pb_simulation` (lines 72-86) and
`ont_simulation` (lines 186-223): `id_counts` is a `defaultdict(lambda: 0)`
tally of the per-read origin-transcript ids, and `counts_to_index` writes
`id_counts[row['transcript_id']]` — always a plain count, `0` when the
transcript produced no reads. -/
def reconcileCounts (rows : List String) (readIds : List String) : List (String × SimCount) :=
  rows.map (fun t => (t, SimCount.val (readIds.count t)))

/-- Python `str.split()` on a raw line: split on runs of whitespace, dropping
empty pieces (implemented over the character list so that it evaluates in the
kernel). -/
def splitWSAux : List Char → List Char → List (List Char)
  | [], acc => if acc = [] then [] else [acc.reverse]
  | c :: cs, acc =>
    if c.isWhitespace then
      if acc = [] then splitWSAux cs [] else acc.reverse :: splitWSAux cs []
    else splitWSAux cs (c :: acc)

/-- `line.split()` as used by `getGeneID` / `getTransID`. -/
def pySplit (s : String) : List String :=
  (splitWSAux s.toList []).map (fun cs => String.mk cs)

/-- `line.startswith('#')`. -/
def isCommentLine (s : String) : Bool :=
  match s.toList with
  | c :: _ => c = '#'
  | [] => false

/-- `value.replace(";", "").replace('"', "")`: strip all semicolons and double
quotes from an attribute value. -/
def stripPunct (s : String) : String :=
  String.mk (s.toList.filter (fun c => ¬ (c = ';' ∨ c = '"')))

/-- `tokens[tokens.index(key) + 1]`: the token following the first occurrence
of `key`; `none` when `key` is missing (`ValueError`) or is the last token
(`IndexError`). -/
def tokenAfter (key : String) : List String → Option String
  | [] => none
  | t :: ts => if t = key then ts.head? else tokenAfter key ts

/-- `getGeneID` (`sim_preparatory.py` lines 160-175).  The Python function has
no exception handler, so `none` here corresponds to an uncaught exception. -/
def getGeneID (line : String) : Option String :=
  (tokenAfter "gene_id" (pySplit line)).map stripPunct

/-- `getTransID` (`sim_preparatory.py` lines 178-196).  The `try/except`
returns `None` on any failure, so `none` here is the graceful `None` result. -/
def getTransID (line : String) : Option String :=
  (tokenAfter "transcript_id" (pySplit line)).map stripPunct

/-- The per-line decision of `modifyGTF` (lines 199-227): comment lines are
written through; otherwise the line is written unless its gene id or
transcript id is in `target` (Python's `None in target` is `False`); an
uncaught `getGeneID` exception aborts (`none`). -/
def keepLine (target : List String) (line : String) : Option Bool :=
  if isCommentLine line then some true
  else
    match getGeneID line with
    | none => none
    | some g =>
      some (!(target.contains g ||
        (match getTransID line with
         | some t => target.contains t
         | none => false)))

/-- `modifyGTF`: stream the input lines, keeping those `keepLine` accepts. -/
def modifyGTF (target : List String) : List String → Option (List String)
  | [] => some []
  | l :: ls =>
    match keepLine target l with
    | none => none
    | some true => (modifyGTF target ls).map (fun ks => l :: ks)
    | some false => modifyGTF target ls

/-- Model of the seeded numpy negative-binomial draw vector
(`numpy.random.negative_binomial(n, p, size)` after `numpy.random.seed(seed)`):
a deterministic stream keyed by the seed.  Only seed-determinism is relied
upon. -/
def nbDraws (seed n : ℕ) : List ℕ :=
  (List.range n).map (fun i => lcgIter (i + 1) seed % 30)

/-- The `pick_sim_type` column written by `target_trans` (lines 150-152):
`"novel"` iff the transcript id is in the final target set (which, since
`final_target` aliases `target_trans`, already includes the whole-gene
ids). -/
def simTypeTable (rows : List IdxRow) (counts : List (String × ℤ)) (seed : ℕ) : List SimRow :=
  let tgt := finalTargetSet rows (targetTransSel rows counts seed).targetTrans
  rows.map (fun r => SimRow.mk r.transId (if r.transId ∈ tgt then "novel" else "known"))

/-- The `preparatory` pipeline of `sqanti_sim.py` (lines 142-172) in `custom`
mode: seed the generators, run `target_trans`, write the `sim_type` column,
then run `create_expr_file_nbinom`; every stochastic choice is derived from
the single seed. -/
def preparatoryRun (rows : List IdxRow) (counts : List (String × ℤ)) (seed n_trans : ℕ) :
    List SimRow × Option (List (String × ℕ × ℚ)) :=
  let tab := simTypeTable rows counts seed
  (tab, nbinomAssign tab n_trans (lcg seed)
    (nbDraws seed (knownSel tab n_trans (lcg seed)).length)
    (nbDraws (lcg seed) (novelIds tab).length))

/-- Transcript ids of the rows carrying a given structural category (the
candidate pool `trans_by_SC[sc]` in file order, before shuffling). -/
def catIds (rows : List IdxRow) (sc : String) : List String :=
  (rows.filter (fun r => r.sc = sc)).map (fun r => r.transId)

/-- Number of transcripts of category `sc` present in the final target set of
`target_trans`. -/
def addsFromCat (rows : List IdxRow) (counts : List (String × ℤ)) (seed : ℕ) (sc : String) : ℕ :=
  ((targetTransSel rows counts seed).targetTrans.filter (fun t => t ∈ catIds rows sc)).length

/-- Verification bookkeeping for the quota argument: the number of already
selected transcripts of category `sc` plus the residual quota of `sc`. -/
def scoreOf (rows : List IdxRow) (sc : String) (st : SelState) : ℤ :=
  ((st.targetTrans.filter (fun t => t ∈ catIds rows sc)).length : ℤ) + getCount st.counts sc

lemma mem_addMem {x a : String} {l : List String} : x ∈ addMem a l ↔ x = a ∨ x ∈ l := by
  unfold addMem
  split
  · constructor
    · exact fun h => Or.inr h
    · rintro (rfl | h) <;> [assumption; assumption]
  · simp [List.mem_cons]

lemma getCount_decCount_self {c : List (String × ℤ)} {k : String} (h : 0 < getCount c k) :
    getCount (decCount c k) k = getCount c k - 1 := by
  induction c with
  | nil => simp [getCount] at h
  | cons p t ih =>
    by_cases hp : p.1 = k
    · simp [decCount, getCount, hp]
    · have h' : 0 < getCount t k := by simpa [getCount, hp] using h
      simpa [decCount, getCount, hp] using ih h'

lemma getCount_cons (p : String × ℤ) (t : List (String × ℤ)) (k : String) :
    getCount (p :: t) k = if p.1 = k then p.2 else getCount t k := rfl

lemma getCount_decCount_ne (c : List (String × ℤ)) {k k' : String} (h : k' ≠ k) :
    getCount (decCount c k) k' = getCount c k' := by
  induction c with
  | nil => rfl
  | cons p t ih =>
    simp only [decCount, List.map_cons]
    by_cases hp : p.1 = k
    · have hne : ¬ p.1 = k' := fun e => h (e.symm.trans hp)
      rw [if_pos hp, getCount_cons, getCount_cons, if_neg hne, if_neg hne]
      exact ih
    · rw [if_neg hp, getCount_cons, getCount_cons]
      by_cases hp' : p.1 = k'
      · rw [if_pos hp', if_pos hp']
      · rw [if_neg hp', if_neg hp']
        exact ih

lemma get_cons_eraseIdx_perm {α : Type} :
    ∀ (l : List α) (j : ℕ) (h : j < l.length),
      List.Perm (l.get ⟨j, h⟩ :: l.eraseIdx j) l
  | a :: as, 0, _ => by simp [List.eraseIdx]
  | a :: as, j + 1, h => by
    have hj : j < as.length := by simpa using h
    have ih := get_cons_eraseIdx_perm as j hj
    simpa [List.eraseIdx] using
      ((List.Perm.swap a (as.get ⟨j, hj⟩) (as.eraseIdx j)).trans (ih.cons a))

lemma shuffleAux_perm {α : Type} :
    ∀ (fuel g : ℕ) (l : List α), l.length ≤ fuel → List.Perm (shuffleAux fuel g l) l := by
  intro fuel
  induction fuel with
  | zero =>
    intro g l h
    rw [Nat.le_zero, List.length_eq_zero] at h
    subst h
    exact List.Perm.refl _
  | succ n ih =>
    intro g l h
    match l with
    | [] => exact List.Perm.refl _
    | a :: as =>
      have hj : g % (as.length + 1) < (a :: as).length := by
        simp only [List.length_cons]
        exact Nat.mod_lt _ (Nat.succ_pos _)
      have hlen : ((a :: as).eraseIdx (g % (as.length + 1))).length ≤ n := by
        have := List.length_eraseIdx_add_one hj
        have hle : as.length ≤ n := by simpa using h
        omega
      have heq : shuffleAux (n + 1) g (a :: as) =
          (a :: as).get ⟨g % (as.length + 1), hj⟩ ::
            shuffleAux n (lcg g) ((a :: as).eraseIdx (g % (as.length + 1))) := by
        simp only [shuffleAux, List.get?_eq_get hj]
      rw [heq]
      exact ((ih (lcg g) _ hlen).cons _).trans (get_cons_eraseIdx_perm _ _ hj)

lemma shuffleList_perm {α : Type} (g : ℕ) (l : List α) : List.Perm (shuffleList g l) l :=
  shuffleAux_perm l.length g l le_rfl

lemma mem_shuffleList {α : Type} {g : ℕ} {l : List α} {x : α} (h : x ∈ shuffleList g l) :
    x ∈ l :=
  (shuffleList_perm g l).mem_iff.mp h

lemma stepRow_main_cases (st : SelState) (r : IdxRow) :
    stepRow st r = st ∨
    (0 < getCount st.counts r.sc ∧ r.transId ∉ st.refTrans ∧
      (stepRow st r).targetTrans = addMem r.transId st.targetTrans ∧
      (stepRow st r).counts = decCount st.counts r.sc ∧
      ((stepRow st r).refTrans = st.refTrans ∨
        (r.sc ∈ fsmCats ∧ r.refT ∉ st.targetTrans ∧
          (stepRow st r).refTrans = addMem r.refT st.refTrans))) := by
  unfold stepRow
  split_ifs <;>
    first
      | exact Or.inl rfl
      | (right
         refine ⟨by tauto, by tauto, rfl, rfl, ?_⟩
         first
           | exact Or.inr ⟨by tauto, by tauto, rfl⟩
           | exact Or.inl rfl)

lemma stepRow_disjTR {st : SelState} {r : IdxRow}
    (hne : r.sc ∈ fsmCats → r.transId ≠ r.refT)
    (hd : ∀ x ∈ st.targetTrans, x ∉ st.refTrans) :
    ∀ x ∈ (stepRow st r).targetTrans, x ∉ (stepRow st r).refTrans := by
  rcases stepRow_main_cases st r with h | ⟨_, hfresh, htt, _, hrt⟩
  · rw [h]; exact hd
  · intro x hx
    rw [htt, mem_addMem] at hx
    rcases hrt with hr | ⟨hfsm, hnotin, hr⟩
    · rw [hr]
      rcases hx with rfl | hx
      · exact hfresh
      · exact hd x hx
    · rw [hr, mem_addMem]
      push_neg
      rcases hx with rfl | hx
      · exact ⟨hne hfsm, hfresh⟩
      · exact ⟨fun e => hnotin (e ▸ hx), hd x hx⟩

lemma processCat_cons (st : SelState) (r : IdxRow) (rs : List IdxRow) :
    processCat st (r :: rs) =
      (if getCount (stepRow st r).counts r.sc ≤ 0 then stepRow st r
        else processCat (stepRow st r) rs) := rfl

lemma selectCats_cons (rows : List IdxRow) (seed : ℕ) (st : SelState) (k : String)
    (ks : List String) :
    selectCats rows seed st (k :: ks) =
      selectCats rows seed
        (if 0 < getCount st.counts k then
          processCat st (shuffleList seed (rows.filter (fun r => r.sc = k)))
        else st) ks := rfl

lemma processCat_disjTR :
    ∀ (L : List IdxRow) (st : SelState),
      (∀ r ∈ L, r.sc ∈ fsmCats → r.transId ≠ r.refT) →
      (∀ x ∈ st.targetTrans, x ∉ st.refTrans) →
      ∀ x ∈ (processCat st L).targetTrans, x ∉ (processCat st L).refTrans
  | [], st, _, hd => by simpa [processCat] using hd
  | r :: rs, st, hne, hd => by
    have hd' := stepRow_disjTR (hne r (by simp)) hd
    rw [processCat_cons]
    split
    · exact hd'
    · exact processCat_disjTR rs (stepRow st r) (fun q hq => hne q (by simp [hq])) hd'

lemma selectCats_disjTR (rows : List IdxRow) (seed : ℕ)
    (hne : ∀ r ∈ rows, r.sc ∈ fsmCats → r.transId ≠ r.refT) :
    ∀ (keys : List String) (st : SelState),
      (∀ x ∈ st.targetTrans, x ∉ st.refTrans) →
      ∀ x ∈ (selectCats rows seed st keys).targetTrans,
        x ∉ (selectCats rows seed st keys).refTrans
  | [], st, hd => by simpa [selectCats] using hd
  | k :: ks, st, hd => by
    rw [selectCats_cons]
    refine selectCats_disjTR rows seed hne ks _ ?_
    split
    · refine processCat_disjTR _ st ?_ hd
      intro r hr
      exact hne r (List.mem_of_mem_filter (mem_shuffleList hr))
    · exact hd

/-- Claim C4 (amended with the no-self-reference proviso): starting from any
state in which `target_trans` and `ref_trans` are disjoint, they stay disjoint
through the whole category-selection phase, provided no splice-match candidate
row lists itself as its own reference transcript; in particular the final
state of `target_trans` has the two sets disjoint. -/
theorem C4_amended (rows : List IdxRow) (counts : List (String × ℤ)) (seed : ℕ)
    (hne : ∀ r ∈ rows, r.sc ∈ fsmCats → r.transId ≠ r.refT) :
    (∀ (st : SelState) (keys : List String),
        (∀ x ∈ st.targetTrans, x ∉ st.refTrans) →
        ∀ x ∈ (selectCats rows seed st keys).targetTrans,
          x ∉ (selectCats rows seed st keys).refTrans) ∧
    (∀ x ∈ (targetTransSel rows counts seed).targetTrans,
        x ∉ (targetTransSel rows counts seed).refTrans) := by
  refine ⟨fun st keys hd => selectCats_disjTR rows seed hne keys st hd, ?_⟩
  exact selectCats_disjTR rows seed hne _ _ (by intro x hx; simp [initState] at hx)

/-- Witness for C4_amended at a concrete input. -/
theorem C4_amended_witness :
    (∀ r ∈ [IdxRow.mk "t1" "g1" "full-splice_match" "rg" "r1"],
        r.sc ∈ fsmCats → r.transId ≠ r.refT) ∧
    (∀ x ∈ (targetTransSel [IdxRow.mk "t1" "g1" "full-splice_match" "rg" "r1"]
        [("full-splice_match", 1)] 7).targetTrans,
      x ∉ (targetTransSel [IdxRow.mk "t1" "g1" "full-splice_match" "rg" "r1"]
        [("full-splice_match", 1)] 7).refTrans) :=
  ⟨by decide,
    (C4_amended [IdxRow.mk "t1" "g1" "full-splice_match" "rg" "r1"]
      [("full-splice_match", 1)] 7 (by decide)).2⟩

/-- Counterexample to claim C4 as stated: a full-splice-match row whose
`ref_transcript` equals its own `transcript_id` is admitted (all three guards
pass against the empty state), after which the transcript is simultaneously in
`target_trans` and in `ref_trans`, so the two sets are not disjoint and the
selected transcript's reference transcript is in `target_trans`. -/
theorem C4_counterexample :
    "t" ∈ (targetTransSel [IdxRow.mk "t" "g" "full-splice_match" "rg" "t"]
              [("full-splice_match", 1)] 0).targetTrans ∧
    "t" ∈ (targetTransSel [IdxRow.mk "t" "g" "full-splice_match" "rg" "t"]
              [("full-splice_match", 1)] 0).refTrans := by
  decide

lemma stepRow_target_sub {st : SelState} {r : IdxRow} :
    ∀ x ∈ (stepRow st r).targetTrans, x ∈ st.targetTrans ∨ x = r.transId := by
  rcases stepRow_main_cases st r with h | ⟨_, _, htt, _, _⟩
  · rw [h]; exact fun x hx => Or.inl hx
  · intro x hx
    rw [htt, mem_addMem] at hx
    exact hx.symm.imp_right id

lemma stepRow_counts_nonneg {st : SelState} {r : IdxRow} (k : String)
    (h : 0 ≤ getCount st.counts k) : 0 ≤ getCount (stepRow st r).counts k := by
  rcases stepRow_main_cases st r with he | ⟨hcnt, _, _, hcn, _⟩
  · rw [he]; exact h
  · rw [hcn]
    by_cases hk : k = r.sc
    · subst hk
      rw [getCount_decCount_self hcnt]
      omega
    · rw [getCount_decCount_ne _ hk]
      exact h

lemma stepRow_score (rows : List IdxRow) (sc : String) {st : SelState} {r : IdxRow}
    (hids : (rows.map (fun q => q.transId)).Nodup)
    (hr : r ∈ rows) (hfresh : r.transId ∉ st.targetTrans) :
    scoreOf rows sc (stepRow st r) = scoreOf rows sc st := by
  rcases stepRow_main_cases st r with h | ⟨hcnt, _, htt, hcn, _⟩
  · rw [h]
  · unfold scoreOf
    rw [htt, hcn]
    have haddm : addMem r.transId st.targetTrans = r.transId :: st.targetTrans := by
      unfold addMem; rw [if_neg hfresh]
    rw [haddm]
    by_cases hsc : sc = r.sc
    · subst hsc
      have hmem : r.transId ∈ catIds rows r.sc := by
        unfold catIds
        exact List.mem_map_of_mem _ (List.mem_filter.mpr ⟨hr, by simp⟩)
      rw [List.filter_cons_of_pos (by simpa using hmem),
        getCount_decCount_self hcnt]
      simp only [List.length_cons]
      push_cast
      ring
    · have hnmem : r.transId ∉ catIds rows sc := by
        intro hmem
        unfold catIds at hmem
        rcases List.mem_map.mp hmem with ⟨q, hq, hqe⟩
        have hqrows : q ∈ rows := List.mem_of_mem_filter hq
        have hqr : q = r := List.inj_on_of_nodup_map hids hqrows hr hqe
        have : q.sc = sc := by simpa using (List.mem_filter.mp hq).2
        exact hsc ((hqr ▸ this).symm)
      rw [List.filter_cons_of_neg (by simpa using hnmem),
        getCount_decCount_ne _ hsc]

lemma processCat_spec (rows : List IdxRow)
    (hids : (rows.map (fun q => q.transId)).Nodup) :
    ∀ (L : List IdxRow) (st : SelState),
      (∀ r ∈ L, r ∈ rows) →
      ((L.map (fun q => q.transId)).Nodup) →
      (∀ r ∈ L, r.transId ∉ st.targetTrans) →
      (∀ sc, scoreOf rows sc (processCat st L) = scoreOf rows sc st) ∧
      (∀ k, 0 ≤ getCount st.counts k → 0 ≤ getCount (processCat st L).counts k) ∧
      (∀ x ∈ (processCat st L).targetTrans, x ∈ st.targetTrans ∨ ∃ r ∈ L, r.transId = x)
  | [], st, _, _, _ => by
    refine ⟨fun sc => by simp [processCat], fun k h => by simpa [processCat] using h,
      fun x hx => Or.inl (by simpa [processCat] using hx)⟩
  | r :: rs, st, hrows, hnodup, hfresh => by
    have hstep_score : ∀ sc, scoreOf rows sc (stepRow st r) = scoreOf rows sc st :=
      fun sc => stepRow_score rows sc hids (hrows r (by simp)) (hfresh r (by simp))
    have hstep_nn : ∀ k, 0 ≤ getCount st.counts k → 0 ≤ getCount (stepRow st r).counts k :=
      fun k h => stepRow_counts_nonneg k h
    have hstep_sub := @stepRow_target_sub st r
    rw [processCat_cons]
    split
    · exact ⟨hstep_score, hstep_nn,
        fun x hx => (hstep_sub x hx).imp_right (fun e => ⟨r, by simp, e.symm⟩)⟩
    · obtain ⟨hhead, htail⟩ :
          (∀ x ∈ rs, ¬x.transId = r.transId) ∧ (rs.map (fun q => q.transId)).Nodup := by
        simpa using hnodup
      have hfresh' : ∀ q ∈ rs, q.transId ∉ (stepRow st r).targetTrans := by
        intro q hq hmem
        rcases hstep_sub _ hmem with h1 | h2
        · exact hfresh q (by simp [hq]) h1
        · exact hhead q hq h2
      obtain ⟨ih1, ih2, ih3⟩ := processCat_spec rows hids rs (stepRow st r)
        (fun q hq => hrows q (by simp [hq])) htail hfresh'
      refine ⟨fun sc => (ih1 sc).trans (hstep_score sc),
        fun k h => ih2 k (hstep_nn k h), fun x hx => ?_⟩
      rcases ih3 x hx with h1 | ⟨q, hq, he⟩
      · exact (hstep_sub x h1).imp_right (fun e => ⟨r, by simp, e.symm⟩)
      · exact Or.inr ⟨q, by simp [hq], he⟩

lemma selectCats_spec (rows : List IdxRow) (seed : ℕ)
    (hids : (rows.map (fun q => q.transId)).Nodup) :
    ∀ (keys : List String) (st : SelState),
      keys.Nodup →
      (∀ r ∈ rows, r.sc ∈ keys → r.transId ∉ st.targetTrans) →
      (∀ sc, scoreOf rows sc (selectCats rows seed st keys) = scoreOf rows sc st) ∧
      (∀ k, 0 ≤ getCount st.counts k → 0 ≤ getCount (selectCats rows seed st keys).counts k)
  | [], st, _, _ => ⟨fun sc => by simp [selectCats], fun k h => by simpa [selectCats] using h⟩
  | k :: ks, st, hkeys, hfresh => by
    rw [selectCats_cons]
    obtain ⟨hknotin, hktail⟩ : k ∉ ks ∧ ks.Nodup := List.nodup_cons.mp hkeys
    split
    · set L := shuffleList seed (rows.filter (fun r => r.sc = k)) with hL
      have hLrows : ∀ r ∈ L, r ∈ rows :=
        fun r hr => List.mem_of_mem_filter (mem_shuffleList hr)
      have hLk : ∀ r ∈ L, r.sc = k := by
        intro r hr
        simpa using (List.mem_filter.mp (mem_shuffleList hr)).2
      have hLnodup : (L.map (fun q => q.transId)).Nodup := by
        have hperm : List.Perm (L.map (fun q => q.transId))
            ((rows.filter (fun r => r.sc = k)).map (fun q => q.transId)) :=
          (shuffleList_perm seed (rows.filter (fun r => r.sc = k))).map _
        have hsub : ((rows.filter (fun r => r.sc = k)).map (fun q => q.transId)).Nodup :=
          ((List.filter_sublist rows).map _).nodup hids
        exact hperm.nodup_iff.mpr hsub
      have hLfresh : ∀ r ∈ L, r.transId ∉ st.targetTrans :=
        fun r hr => hfresh r (hLrows r hr) (by simp [hLk r hr])
      obtain ⟨hp1, hp2, hp3⟩ := processCat_spec rows hids L st hLrows hLnodup hLfresh
      have hfresh' : ∀ r ∈ rows, r.sc ∈ ks → r.transId ∉ (processCat st L).targetTrans := by
        intro r hr hrk hmem
        rcases hp3 _ hmem with h1 | ⟨q, hq, he⟩
        · exact hfresh r hr (by simp [hrk]) h1
        · have hqr : q = r := List.inj_on_of_nodup_map hids (hLrows q hq) hr he
          rw [hqr] at hq
          have : r.sc = k := hLk r hq
          exact hknotin (this ▸ hrk)
      obtain ⟨ih1, ih2⟩ := selectCats_spec rows seed hids ks (processCat st L) hktail hfresh'
      exact ⟨fun sc => (ih1 sc).trans (hp1 sc), fun k' h => ih2 k' (hp2 k' h)⟩
    · exact selectCats_spec rows seed hids ks st hktail
        (fun r hr hrk => hfresh r hr (by simp [hrk]))

/-- Claim C6: for every structural category, the number of transcripts added
to `target_trans` from that category never exceeds the quota requested for
that category in the `counts` mapping; the residual quota in the in-place
mutated dictionary is exactly the requested quota minus the achieved
deletions (so it stays positive when candidates run out early), and the
selector terminates normally (the total function `targetTransSel`) without
raising.  Hypotheses: distinct transcript ids, distinct dictionary keys and a
non-negative requested quota — all guaranteed for a real index file and quota
dictionary. -/
theorem C6_quota (rows : List IdxRow) (counts : List (String × ℤ)) (seed : ℕ) (sc : String)
    (hids : (rows.map (fun q => q.transId)).Nodup)
    (hkeys : (counts.map Prod.fst).Nodup)
    (hq : 0 ≤ getCount counts sc) :
    ((addsFromCat rows counts seed sc : ℤ) ≤ getCount counts sc) ∧
    (getCount (targetTransSel rows counts seed).counts sc =
      getCount counts sc - (addsFromCat rows counts seed sc : ℤ)) ∧
    ((addsFromCat rows counts seed sc : ℤ) < getCount counts sc →
      0 < getCount (targetTransSel rows counts seed).counts sc) := by
  obtain ⟨hscore, hnn⟩ := selectCats_spec rows seed hids (counts.map Prod.fst)
    (initState counts) hkeys (by intro r _ _ hx; simp [initState] at hx)
  have h1 := hscore sc
  have h2 := hnn sc (by simpa [initState] using hq)
  unfold scoreOf at h1
  rw [show (initState counts).targetTrans = [] from rfl,
    show (initState counts).counts = counts from rfl] at h1
  simp only [List.filter_nil, List.length_nil, Nat.cast_zero, zero_add] at h1
  simp only [addsFromCat, targetTransSel]
  refine ⟨by omega, by omega, by omega⟩

/-- Witness for C6_quota at a concrete input. -/
theorem C6_quota_witness :
    (([IdxRow.mk "t1" "g1" "intergenic" "rg" "rt"].map (fun q => q.transId)).Nodup) ∧
    (([("intergenic", (2 : ℤ))].map Prod.fst).Nodup) ∧
    (0 ≤ getCount [("intergenic", (2 : ℤ))] "intergenic") ∧
    (((addsFromCat [IdxRow.mk "t1" "g1" "intergenic" "rg" "rt"]
          [("intergenic", (2 : ℤ))] 5 "intergenic" : ℤ) ≤
        getCount [("intergenic", (2 : ℤ))] "intergenic") ∧
      (getCount (targetTransSel [IdxRow.mk "t1" "g1" "intergenic" "rg" "rt"]
            [("intergenic", (2 : ℤ))] 5).counts "intergenic" =
        getCount [("intergenic", (2 : ℤ))] "intergenic" -
          (addsFromCat [IdxRow.mk "t1" "g1" "intergenic" "rg" "rt"]
            [("intergenic", (2 : ℤ))] 5 "intergenic" : ℤ)) ∧
      ((addsFromCat [IdxRow.mk "t1" "g1" "intergenic" "rg" "rt"]
            [("intergenic", (2 : ℤ))] 5 "intergenic" : ℤ) <
          getCount [("intergenic", (2 : ℤ))] "intergenic" →
        0 < getCount (targetTransSel [IdxRow.mk "t1" "g1" "intergenic" "rg" "rt"]
            [("intergenic", (2 : ℤ))] 5).counts "intergenic")) :=
  ⟨by decide, by decide, by decide,
    C6_quota [IdxRow.mk "t1" "g1" "intergenic" "rg" "rt"] [("intergenic", (2 : ℤ))] 5
      "intergenic" (by decide) (by decide) (by decide)⟩

lemma pyRound_abs (q : ℚ) : |(pyRound q : ℚ) - q| ≤ 1 / 2 := by
  have h0 : (⌊q⌋ : ℚ) ≤ q := Int.floor_le q
  have h1 : q < ⌊q⌋ + 1 := Int.lt_floor_add_one q
  unfold pyRound
  split_ifs with ha hb hc <;>
    (rw [abs_le]; constructor <;> push_cast <;> linarith)

lemma round2_abs (q : ℚ) : |round2 q - q| ≤ 1 / 200 := by
  have h := pyRound_abs (q * 100)
  unfold round2
  rw [show (pyRound (q * 100) : ℚ) / 100 - q = ((pyRound (q * 100) : ℚ) - q * 100) / 100 by
    ring]
  rw [abs_div, show |(100 : ℚ)| = 100 by norm_num,
    show (1 : ℚ) / 200 = (1 / 2) / 100 by norm_num]
  exact (div_le_div_iff_of_pos_right (by norm_num)).mpr h

lemma sum_map_round2_near :
    ∀ (xs : List ℚ), |((xs.map round2).sum) - xs.sum| ≤ (xs.length : ℚ) * (1 / 200)
  | [] => by simp
  | x :: xs => by
    have ih := sum_map_round2_near xs
    have hx := round2_abs x
    simp only [List.map_cons, List.sum_cons, List.length_cons]
    rw [show round2 x + (xs.map round2).sum - (x + xs.sum) =
      (round2 x - x) + ((xs.map round2).sum - xs.sum) by ring]
    calc |(round2 x - x) + ((xs.map round2).sum - xs.sum)|
        ≤ |round2 x - x| + |(xs.map round2).sum - xs.sum| := abs_add _ _
      _ ≤ 1 / 200 + (xs.length : ℚ) * (1 / 200) := add_le_add hx ih
      _ = ((xs.length : ℚ) + 1) * (1 / 200) := by ring
      _ = (((xs.length : ℕ) + 1 : ℕ) : ℚ) * (1 / 200) := by push_cast; ring

lemma sum_map_const {α : Type} (f : α → ℚ) (v : ℚ) :
    ∀ (l : List α), (∀ x ∈ l, f x = v) → (l.map f).sum = (l.length : ℚ) * v
  | [], _ => by simp
  | x :: xs, h => by
    have ih := sum_map_const f v xs (fun y hy => h y (by simp [hy]))
    simp only [List.map_cons, List.sum_cons, List.length_cons, h x (by simp), ih]
    push_cast
    ring

lemma tpmFixed_pos (cov n : ℕ) (hcov : cov ≠ 0) (hn : n ≠ 0) :
    tpmFixed cov n = round2 ((1000000 : ℚ) / n) := by
  have hcq : (cov : ℚ) ≠ 0 := Nat.cast_ne_zero.mpr hcov
  have hd : ((cov : ℚ) * n) ≠ 0 := mul_ne_zero hcq (Nat.cast_ne_zero.mpr hn)
  unfold tpmFixed ratDivNA fillna0
  rw [if_neg hd]
  simp only [Option.map_some', Option.getD_some]
  congr 1
  rw [mul_comm (1000000 : ℚ) (cov : ℚ), mul_div_mul_left _ _ hcq]

lemma fixed_sum (rows : List SimRow) (tot : List String) (cov n : ℕ)
    (hcov : cov ≠ 0) (hn : n ≠ 0) :
    (((rows.map (fixedRow tot cov n)).filter (fun p => p.2.1 ≠ 0)).map
        (fun p => p.2.2)).sum =
      ((((rows.map (fixedRow tot cov n)).filter (fun p => p.2.1 ≠ 0)).length : ℚ)) *
        round2 ((1000000 : ℚ) / n) := by
  apply sum_map_const
  intro p hp
  have hpnz : p.2.1 ≠ 0 := by simpa using (List.mem_filter.mp hp).2
  rcases List.mem_map.mp (List.mem_of_mem_filter hp) with ⟨r, _, rfl⟩
  unfold fixedRow at hpnz ⊢
  by_cases hm : r.transId ∈ tot
  · simp only [if_pos hm] at hpnz ⊢
    exact tpmFixed_pos cov n hcov hn
  · simp only [if_neg hm] at hpnz
    exact absurd rfl hpnz

lemma popAssign_spec (N K : List String) :
    ∀ (rows : List SimRow) (nov kn : List ℕ),
      (rows.filter (fun r => r.transId ∈ N)).length = nov.length →
      (rows.filter (fun r => ¬ r.transId ∈ N ∧ r.transId ∈ K)).length = kn.length →
      ∃ l, popAssign N K rows nov kn = some l ∧
        l.map Prod.fst = rows.map (fun r => r.transId) ∧
        (l.map Prod.snd).sum = nov.sum + kn.sum ∧
        (∀ p ∈ l, (p.1 ∈ N ∨ p.1 ∈ K) → p.2 ∈ nov ∨ p.2 ∈ kn)
  | [], nov, kn, h1, h2 => by
    simp only [List.filter_nil, List.length_nil] at h1 h2
    have hnov : nov = [] := List.length_eq_zero.mp h1.symm
    have hkn : kn = [] := List.length_eq_zero.mp h2.symm
    subst hnov; subst hkn
    exact ⟨[], rfl, rfl, by simp, by simp⟩
  | r :: rs, nov, kn, h1, h2 => by
    by_cases hN : r.transId ∈ N
    · rw [List.filter_cons_of_pos (by simpa using hN)] at h1
      rw [List.filter_cons_of_neg (by simp [hN])] at h2
      have hne : nov ≠ [] := by
        intro h; subst h; simp at h1
      obtain ⟨c, hc⟩ : ∃ c, nov.getLast? = some c :=
        Option.isSome_iff_exists.mp (List.getLast?_isSome.mpr hne)
      have hsumnov : nov.dropLast.sum + c = nov.sum := by
        have hdc : nov.dropLast ++ [nov.getLast hne] = nov := List.dropLast_concat_getLast hne
        have hcc : nov.getLast hne = c := by
          have := List.getLast?_eq_getLast nov hne
          rw [this] at hc
          exact Option.some.inj hc
        calc nov.dropLast.sum + c = (nov.dropLast ++ [c]).sum := by simp
          _ = nov.sum := by rw [← hcc, hdc]
      have hlen : (rs.filter (fun r => r.transId ∈ N)).length = nov.dropLast.length := by
        rw [List.length_dropLast]
        simp only [List.length_cons] at h1
        omega
      obtain ⟨l, hl, hfst, hsum, hmem⟩ := popAssign_spec N K rs nov.dropLast kn hlen h2
      refine ⟨(r.transId, c) :: l, ?_, by simp [hfst], ?_, ?_⟩
      · unfold popAssign
        rw [if_pos hN, hc, hl]
        rfl
      · simp only [List.map_cons, List.sum_cons, hsum]
        omega
      · intro p hp
        rcases List.mem_cons.mp hp with rfl | hp
        · exact fun _ => Or.inl (List.mem_of_getLast?_eq_some hc)
        · intro hpm
          rcases hmem p hp hpm with h | h
          · exact Or.inl ((List.dropLast_sublist nov).subset h)
          · exact Or.inr h
    · by_cases hK : r.transId ∈ K
      · rw [List.filter_cons_of_neg (by simpa using hN)] at h1
        rw [List.filter_cons_of_pos (by simp [hN, hK])] at h2
        have hne : kn ≠ [] := by
          intro h; subst h; simp at h2
        obtain ⟨c, hc⟩ : ∃ c, kn.getLast? = some c :=
          Option.isSome_iff_exists.mp (List.getLast?_isSome.mpr hne)
        have hsumkn : kn.dropLast.sum + c = kn.sum := by
          have hdc : kn.dropLast ++ [kn.getLast hne] = kn := List.dropLast_concat_getLast hne
          have hcc : kn.getLast hne = c := by
            have := List.getLast?_eq_getLast kn hne
            rw [this] at hc
            exact Option.some.inj hc
          calc kn.dropLast.sum + c = (kn.dropLast ++ [c]).sum := by simp
            _ = kn.sum := by rw [← hcc, hdc]
        have hlen : (rs.filter (fun r => ¬ r.transId ∈ N ∧ r.transId ∈ K)).length =
            kn.dropLast.length := by
          rw [List.length_dropLast]
          simp only [List.length_cons] at h2
          omega
        obtain ⟨l, hl, hfst, hsum, hmem⟩ := popAssign_spec N K rs nov kn.dropLast h1 hlen
        refine ⟨(r.transId, c) :: l, ?_, by simp [hfst], ?_, ?_⟩
        · unfold popAssign
          rw [if_neg hN, if_pos hK, hc, hl]
          rfl
        · simp only [List.map_cons, List.sum_cons, hsum]
          omega
        · intro p hp
          rcases List.mem_cons.mp hp with rfl | hp
          · exact fun _ => Or.inr (List.mem_of_getLast?_eq_some hc)
          · intro hpm
            rcases hmem p hp hpm with h | h
            · exact Or.inl h
            · exact Or.inr ((List.dropLast_sublist kn).subset h)
      · rw [List.filter_cons_of_neg (by simpa using hN)] at h1
        rw [List.filter_cons_of_neg (by simp [hN, hK])] at h2
        obtain ⟨l, hl, hfst, hsum, hmem⟩ := popAssign_spec N K rs nov kn h1 h2
        refine ⟨(r.transId, 0) :: l, ?_, by simp [hfst], by simpa using hsum, ?_⟩
        · unfold popAssign
          rw [if_neg hN, if_neg hK, hl]
          rfl
        · intro p hp
          rcases List.mem_cons.mp hp with rfl | hp
          · intro hpm
            exact absurd hpm (by simp [hN, hK])
          · exact hmem p hp

lemma floorOne_pos {l : List ℕ} : ∀ c ∈ floorOne l, 1 ≤ c := by
  intro c hc
  rcases List.mem_map.mp hc with ⟨n, _, rfl⟩
  by_cases h : n = 0 <;> simp [h]
  omega

lemma floorOne_sum_len : ∀ (l : List ℕ), l.length ≤ (floorOne l).sum
  | [] => le_rfl
  | n :: t => by
    have ih := floorOne_sum_len t
    simp only [floorOne, List.map_cons, List.sum_cons, List.length_cons]
    have h1 : 1 ≤ if n = 0 then 1 else n := by
      by_cases h : n = 0 <;> simp [h]
      omega
    calc t.length + 1 ≤ (floorOne t).sum + 1 := by omega
      _ ≤ (floorOne t).sum + (if n = 0 then 1 else n) := by omega
      _ = (if n = 0 then 1 else n) + (floorOne t).sum := by omega

lemma sum_filter_ne_zero :
    ∀ (l : List (String × ℕ)),
      ((l.filter (fun q => q.2 ≠ 0)).map Prod.snd).sum = (l.map Prod.snd).sum
  | [] => rfl
  | q :: t => by
    have ih := sum_filter_ne_zero t
    by_cases h : q.2 = 0
    · rw [List.filter_cons_of_neg (by simpa using h), ih, List.map_cons, List.sum_cons, h]
      omega
    · rw [List.filter_cons_of_pos (by simpa using h), List.map_cons, List.sum_cons, ih,
        List.map_cons, List.sum_cons]

lemma sum_map_expr (R : ℚ) :
    ∀ (m : List (String × ℕ)),
      (m.map (fun q => (1000000 : ℚ) * q.2 / R)).sum =
        1000000 * (((m.map Prod.snd).sum : ℕ) : ℚ) / R
  | [] => by simp
  | q :: t => by
    have ih := sum_map_expr R t
    simp only [List.map_cons, List.sum_cons, ih]
    push_cast
    ring

lemma abs_mul_round2_le (n : ℕ) (hn : 0 < n) :
    |(n : ℚ) * round2 ((1000000 : ℚ) / n) - 1000000| ≤ (n : ℚ) := by
  have hnq : (n : ℚ) ≠ 0 := Nat.cast_ne_zero.mpr (by omega)
  have hw : (n : ℚ) * ((1000000 : ℚ) / n) = 1000000 := by field_simp
  have hnn : (0 : ℚ) ≤ (n : ℚ) := Nat.cast_nonneg n
  calc |(n : ℚ) * round2 ((1000000 : ℚ) / n) - 1000000|
      = |(n : ℚ) * round2 ((1000000 : ℚ) / n) - (n : ℚ) * ((1000000 : ℚ) / n)| := by rw [hw]
    _ = (n : ℚ) * |round2 ((1000000 : ℚ) / n) - (1000000 : ℚ) / n| := by
        rw [← mul_sub, abs_mul, abs_of_nonneg hnn]
    _ ≤ (n : ℚ) * (1 / 200) := by
        exact mul_le_mul_of_nonneg_left (round2_abs _) hnn
    _ ≤ (n : ℚ) * 1 := by
        exact mul_le_mul_of_nonneg_left (by norm_num) hnn
    _ = (n : ℚ) := mul_one _

lemma nbinom_sum_spec (rows : List SimRow) (nB gB : ℕ) (rawK rawN : List ℕ)
    (hB1 : (rows.filter (fun r => r.transId ∈ novelIds rows)).length = rawN.length)
    (hB2 : (rows.filter (fun r => ¬ r.transId ∈ novelIds rows ∧
        r.transId ∈ knownSel rows nB gB)).length = rawK.length)
    (hBn : 0 < rawN.length + rawK.length) :
    ∃ l, nbinomAssign rows nB gB rawK rawN = some l ∧
      |((l.filter (fun p => p.2.1 ≠ 0)).map (fun p => p.2.2)).sum - 1000000| ≤
        ((l.filter (fun p => p.2.1 ≠ 0)).length : ℚ) := by
  have hB1' : (rows.filter (fun r => r.transId ∈ novelIds rows)).length =
      (floorOne rawN).length := by simpa [floorOne] using hB1
  have hB2' : (rows.filter (fun r => ¬ r.transId ∈ novelIds rows ∧
      r.transId ∈ knownSel rows nB gB)).length = (floorOne rawK).length := by
    simpa [floorOne] using hB2
  obtain ⟨l0, hl0, hfst, hsum0, hmemc⟩ := popAssign_spec (novelIds rows)
    (knownSel rows nB gB) rows (floorOne rawN) (floorOne rawK) hB1' hB2'
  have hR0 : 0 < (floorOne rawK).sum + (floorOne rawN).sum := by
    have h1 := floorOne_sum_len rawK
    have h2 := floorOne_sum_len rawN
    omega
  have hRq : (((floorOne rawK).sum + (floorOne rawN).sum : ℕ) : ℚ) ≠ 0 :=
    Nat.cast_ne_zero.mpr (by omega)
  refine ⟨l0.map (fun p =>
      (p.1, p.2, tpmOf p.2 (((floorOne rawK).sum + (floorOne rawN).sum : ℕ) : ℚ))), ?_, ?_⟩
  · show (popAssign (novelIds rows) (knownSel rows nB gB) rows
        (floorOne rawN) (floorOne rawK)).map
        (fun l => l.map (fun p =>
          (p.1, p.2, tpmOf p.2 (((floorOne rawK).sum + (floorOne rawN).sum : ℕ) : ℚ)))) = _
    rw [hl0]
    rfl
  · have hfilter : (l0.map (fun p =>
        (p.1, p.2, tpmOf p.2 (((floorOne rawK).sum + (floorOne rawN).sum : ℕ) : ℚ)))).filter
          (fun p => p.2.1 ≠ 0) =
        (l0.filter (fun q => q.2 ≠ 0)).map (fun p =>
          (p.1, p.2, tpmOf p.2 (((floorOne rawK).sum + (floorOne rawN).sum : ℕ) : ℚ))) := by
      rw [List.filter_map]
      rfl
    rw [hfilter, List.length_map, List.map_map]
    have hmapeq : ((l0.filter (fun q => q.2 ≠ 0)).map ((fun p : String × ℕ × ℚ => p.2.2) ∘
        (fun p : String × ℕ =>
          (p.1, p.2, tpmOf p.2 (((floorOne rawK).sum + (floorOne rawN).sum : ℕ) : ℚ))))) =
        ((l0.filter (fun q => q.2 ≠ 0)).map (fun q : String × ℕ =>
          (1000000 : ℚ) * q.2 / (((floorOne rawK).sum + (floorOne rawN).sum : ℕ) : ℚ))).map
            round2 := by
      rw [List.map_map]
      refine List.map_congr_left ?_
      intro q _
      show tpmOf q.2 _ = _
      unfold tpmOf ratDivNA fillna0
      rw [if_neg hRq]
      rfl
    rw [hmapeq]
    have hxs : ((l0.filter (fun q => q.2 ≠ 0)).map (fun q : String × ℕ =>
        (1000000 : ℚ) * q.2 / (((floorOne rawK).sum + (floorOne rawN).sum : ℕ) : ℚ))).sum =
        1000000 := by
      rw [sum_map_expr]
      rw [sum_filter_ne_zero l0, hsum0]
      rw [show (floorOne rawN).sum + (floorOne rawK).sum =
        (floorOne rawK).sum + (floorOne rawN).sum by omega]
      exact mul_div_cancel_right₀ 1000000 hRq
    have hnear := sum_map_round2_near ((l0.filter (fun q => q.2 ≠ 0)).map (fun q : String × ℕ =>
        (1000000 : ℚ) * q.2 / (((floorOne rawK).sum + (floorOne rawN).sum : ℕ) : ℚ)))
    rw [hxs, List.length_map] at hnear
    have hlen : (0 : ℚ) ≤ ((l0.filter (fun q => q.2 ≠ 0)).length : ℚ) := Nat.cast_nonneg _
    calc |(((l0.filter (fun q => q.2 ≠ 0)).map (fun q : String × ℕ =>
            (1000000 : ℚ) * q.2 /
              (((floorOne rawK).sum + (floorOne rawN).sum : ℕ) : ℚ))).map round2).sum -
          1000000|
        ≤ ((l0.filter (fun q => q.2 ≠ 0)).length : ℚ) * (1 / 200) := hnear
      _ ≤ ((l0.filter (fun q => q.2 ≠ 0)).length : ℚ) * 1 :=
          mul_le_mul_of_nonneg_left (by norm_num) hlen
      _ = ((l0.filter (fun q => q.2 ≠ 0)).length : ℚ) := mul_one _

lemma popAssign_tpm_sum (N K : List String) (rows : List SimRow) (nov kn : List ℕ) (R : ℕ)
    (h1 : (rows.filter (fun r => r.transId ∈ N)).length = nov.length)
    (h2 : (rows.filter (fun r => ¬ r.transId ∈ N ∧ r.transId ∈ K)).length = kn.length)
    (hR : R = nov.sum + kn.sum) (hpos : 0 < R) :
    ∃ l0, popAssign N K rows nov kn = some l0 ∧
      |(((l0.map (fun p => (p.1, p.2, tpmOf p.2 (R : ℚ)))).filter
          (fun p => p.2.1 ≠ 0)).map (fun p => p.2.2)).sum - 1000000| ≤
        (((l0.map (fun p => (p.1, p.2, tpmOf p.2 (R : ℚ)))).filter
          (fun p => p.2.1 ≠ 0)).length : ℚ) := by
  obtain ⟨l0, hl0, hfst, hsum0, hmemc⟩ := popAssign_spec N K rows nov kn h1 h2
  have hRq : ((R : ℕ) : ℚ) ≠ 0 := Nat.cast_ne_zero.mpr (by omega)
  refine ⟨l0, hl0, ?_⟩
  have hfilter : (l0.map (fun p => (p.1, p.2, tpmOf p.2 (R : ℚ)))).filter
      (fun p => p.2.1 ≠ 0) =
      (l0.filter (fun q => q.2 ≠ 0)).map (fun p => (p.1, p.2, tpmOf p.2 (R : ℚ))) := by
    rw [List.filter_map]
    rfl
  rw [hfilter, List.length_map, List.map_map]
  have hmapeq : ((l0.filter (fun q => q.2 ≠ 0)).map ((fun p : String × ℕ × ℚ => p.2.2) ∘
      (fun p : String × ℕ => (p.1, p.2, tpmOf p.2 (R : ℚ))))) =
      ((l0.filter (fun q => q.2 ≠ 0)).map (fun q : String × ℕ =>
        (1000000 : ℚ) * q.2 / (R : ℚ))).map round2 := by
    rw [List.map_map]
    refine List.map_congr_left ?_
    intro q _
    show tpmOf q.2 _ = _
    unfold tpmOf ratDivNA fillna0
    rw [if_neg hRq]
    rfl
  rw [hmapeq]
  have hxs : ((l0.filter (fun q => q.2 ≠ 0)).map (fun q : String × ℕ =>
      (1000000 : ℚ) * q.2 / (R : ℚ))).sum = 1000000 := by
    rw [sum_map_expr]
    rw [sum_filter_ne_zero l0, hsum0]
    rw [show nov.sum + kn.sum = R from hR.symm]
    exact mul_div_cancel_right₀ 1000000 hRq
  have hnear := sum_map_round2_near ((l0.filter (fun q => q.2 ≠ 0)).map
    (fun q : String × ℕ => (1000000 : ℚ) * q.2 / (R : ℚ)))
  rw [hxs, List.length_map] at hnear
  have hlen : (0 : ℚ) ≤ ((l0.filter (fun q => q.2 ≠ 0)).length : ℚ) := Nat.cast_nonneg _
  calc |(((l0.filter (fun q => q.2 ≠ 0)).map (fun q : String × ℕ =>
          (1000000 : ℚ) * q.2 / (R : ℚ))).map round2).sum - 1000000|
      ≤ ((l0.filter (fun q => q.2 ≠ 0)).length : ℚ) * (1 / 200) := hnear
    _ ≤ ((l0.filter (fun q => q.2 ≠ 0)).length : ℚ) * 1 :=
        mul_le_mul_of_nonneg_left (by norm_num) hlen
    _ = ((l0.filter (fun q => q.2 ≠ 0)).length : ℚ) := mul_one _

lemma sample_sum_spec (rows : List SimRow) (nS gS : ℕ) (novelExpr knownExpr : List ℕ)
    (hS1 : (rows.filter (fun r => r.transId ∈ novelIds rows)).length = novelExpr.length)
    (hS2 : (rows.filter (fun r => ¬ r.transId ∈ novelIds rows ∧
        r.transId ∈ knownSel rows nS gS)).length = knownExpr.length)
    (hSn : 0 < novelExpr.sum + knownExpr.sum) :
    ∃ l, sampleAssign rows nS gS novelExpr knownExpr = some l ∧
      |((l.filter (fun p => p.2.1 ≠ 0)).map (fun p => p.2.2)).sum - 1000000| ≤
        ((l.filter (fun p => p.2.1 ≠ 0)).length : ℚ) := by
  obtain ⟨l0, hl0, hbound⟩ := popAssign_tpm_sum (novelIds rows) (knownSel rows nS gS) rows
    novelExpr knownExpr (novelExpr.sum + knownExpr.sum) hS1 hS2 rfl hSn
  have hassign : sampleAssign rows nS gS novelExpr knownExpr =
      some (l0.map (fun p =>
        (p.1, p.2, tpmOf p.2 ((novelExpr.sum + knownExpr.sum : ℕ) : ℚ)))) := by
    unfold sampleAssign
    rw [hl0]
    rfl
  exact ⟨_, hassign, hbound⟩

/-- Claim C5 (amended): for all three expression-assignment strategies the
sum of `requested_tpm` over transcripts with nonzero `requested_counts`
equals 1,000,000 within ±1 per such transcript, with one proviso forced by
the counterexample — in fixed-count mode exactly `n_trans` transcripts must
be selected and `read_count ≥ n_trans`: negative-binomial assignment
satisfies it whenever at least one transcript is selected, and sample-derived
assignment satisfies it whenever its accept/reject loops completed (lists of
the lengths the code builds) with a positive total count.  (When fewer
transcripts are available, fixed-count mode falls short of 1,000,000 because
the TPM formula divides by `n_trans`, not by the achieved count — see the
counterexample.) -/
theorem C5_amended (rowsF : List SimRow) (nF rcF gF : ℕ)
    (rowsB : List SimRow) (nB gB : ℕ) (rawK rawN : List ℕ)
    (rowsS : List SimRow) (nS gS : ℕ) (novE knE : List ℕ)
    (hAn : 0 < nF) (hArc : nF ≤ rcF)
    (hAsel : ((fixedCountAssign rowsF nF rcF gF).filter (fun p => p.2.1 ≠ 0)).length = nF)
    (hB1 : (rowsB.filter (fun r => r.transId ∈ novelIds rowsB)).length = rawN.length)
    (hB2 : (rowsB.filter (fun r => ¬ r.transId ∈ novelIds rowsB ∧
        r.transId ∈ knownSel rowsB nB gB)).length = rawK.length)
    (hBn : 0 < rawN.length + rawK.length)
    (hS1 : (rowsS.filter (fun r => r.transId ∈ novelIds rowsS)).length = novE.length)
    (hS2 : (rowsS.filter (fun r => ¬ r.transId ∈ novelIds rowsS ∧
        r.transId ∈ knownSel rowsS nS gS)).length = knE.length)
    (hSn : 0 < novE.sum + knE.sum) :
    (|(((fixedCountAssign rowsF nF rcF gF).filter (fun p => p.2.1 ≠ 0)).map
        (fun p => p.2.2)).sum - 1000000| ≤ (nF : ℚ)) ∧
    (∃ l, nbinomAssign rowsB nB gB rawK rawN = some l ∧
      |((l.filter (fun p => p.2.1 ≠ 0)).map (fun p => p.2.2)).sum - 1000000| ≤
        ((l.filter (fun p => p.2.1 ≠ 0)).length : ℚ)) ∧
    (∃ l, sampleAssign rowsS nS gS novE knE = some l ∧
      |((l.filter (fun p => p.2.1 ≠ 0)).map (fun p => p.2.2)).sum - 1000000| ≤
        ((l.filter (fun p => p.2.1 ≠ 0)).length : ℚ)) := by
  refine ⟨?_, ?_, ?_⟩
  · have hcov : rcF / nF ≠ 0 := by
      have := (Nat.one_le_div_iff hAn).mpr hArc
      omega
    have hs := fixed_sum rowsF (novelIds rowsF ++ knownSel rowsF nF gF) (rcF / nF) nF hcov
      (by omega)
    unfold fixedCountAssign at hAsel ⊢
    rw [hs, hAsel]
    exact abs_mul_round2_le nF hAn
  · exact nbinom_sum_spec rowsB nB gB rawK rawN hB1 hB2 hBn
  · exact sample_sum_spec rowsS nS gS novE knE hS1 hS2 hSn

/-- Witness for C5_amended at a concrete input (two rows, full selection for
the fixed-count part; one novel row with a single raw draw for the
negative-binomial part; one novel row with a single sampled count for the
sample-derived part). -/
theorem C5_amended_witness :
    ((0 : ℕ) < 2 ∧ (2 : ℕ) ≤ 2 ∧
      ((fixedCountAssign [SimRow.mk "a" "novel", SimRow.mk "b" "novel"] 2 2 0).filter
        (fun p => p.2.1 ≠ 0)).length = 2 ∧
      (0 : ℕ) < List.sum [4] + List.sum []) ∧
    ((|(((fixedCountAssign [SimRow.mk "a" "novel", SimRow.mk "b" "novel"] 2 2 0).filter
          (fun p => p.2.1 ≠ 0)).map (fun p => p.2.2)).sum - 1000000| ≤ ((2 : ℕ) : ℚ)) ∧
      (∃ l, nbinomAssign [SimRow.mk "c" "novel"] 1 0 [] [3] = some l ∧
        |((l.filter (fun p => p.2.1 ≠ 0)).map (fun p => p.2.2)).sum - 1000000| ≤
          ((l.filter (fun p => p.2.1 ≠ 0)).length : ℚ)) ∧
      (∃ l, sampleAssign [SimRow.mk "s" "novel"] 1 0 [4] [] = some l ∧
        |((l.filter (fun p => p.2.1 ≠ 0)).map (fun p => p.2.2)).sum - 1000000| ≤
          ((l.filter (fun p => p.2.1 ≠ 0)).length : ℚ))) :=
  ⟨⟨by decide, by decide, by decide, by decide⟩,
    C5_amended [SimRow.mk "a" "novel", SimRow.mk "b" "novel"] 2 2 0
      [SimRow.mk "c" "novel"] 1 0 [] [3]
      [SimRow.mk "s" "novel"] 1 0 [4] []
      (by decide) (by decide) (by decide) (by decide) (by decide) (by decide)
      (by decide) (by decide) (by decide)⟩

/-- Counterexample to claim C5 as stated: fixed-count assignment with
`n_trans = 10`, `read_count = 1000` over an index holding only five (novel)
transcripts.  Every selected transcript gets `requested_tpm =
round(1000000/10, 2) = 100000`, so the sum over nonzero-count rows is 500000,
not 1,000,000 within ±1 per transcript (tolerance 5). -/
theorem C5_counterexample :
    (((fixedCountAssign
        [SimRow.mk "a" "novel", SimRow.mk "b" "novel", SimRow.mk "c" "novel",
         SimRow.mk "d" "novel", SimRow.mk "e" "novel"] 10 1000 0).filter
        (fun p => p.2.1 ≠ 0)).map (fun p => p.2.2)).sum = 500000 ∧
    ¬ (|(500000 : ℚ) - 1000000| ≤ 5) := by
  have h : (((fixedCountAssign
        [SimRow.mk "a" "novel", SimRow.mk "b" "novel", SimRow.mk "c" "novel",
         SimRow.mk "d" "novel", SimRow.mk "e" "novel"] 10 1000 0).filter
        (fun p => p.2.1 ≠ 0)).map (fun p => p.2.2)) =
      [tpmFixed 100 10, tpmFixed 100 10, tpmFixed 100 10, tpmFixed 100 10,
        tpmFixed 100 10] := rfl
  have ht : tpmFixed 100 10 = 100000 := by
    norm_num [tpmFixed, fillna0, ratDivNA, round2, pyRound]
  constructor
  · rw [h, ht]
    norm_num
  · rw [abs_of_nonpos] <;> norm_num

lemma popAssign_pos (N K : List String) :
    ∀ (rows : List SimRow) (nov kn : List ℕ) (l : List (String × ℕ)),
      popAssign N K rows nov kn = some l →
      (∀ c ∈ nov, 1 ≤ c) → (∀ c ∈ kn, 1 ≤ c) →
      ∀ p ∈ l, (p.1 ∈ N ∨ p.1 ∈ K) → 1 ≤ p.2
  | [], nov, kn, l, h, _, _ => by
    simp only [popAssign] at h
    cases h
    intro p hp
    simp at hp
  | r :: rs, nov, kn, l, h, hnov, hkn => by
    unfold popAssign at h
    by_cases hN : r.transId ∈ N
    · rw [if_pos hN] at h
      cases hc : nov.getLast? with
      | none => rw [hc] at h; simp at h
      | some c =>
        rw [hc] at h
        rcases Option.map_eq_some'.mp h with ⟨t, ht, rfl⟩
        intro p hp hpm
        rcases List.mem_cons.mp hp with rfl | hp
        · exact hnov c (List.mem_of_getLast?_eq_some hc)
        · exact popAssign_pos N K rs nov.dropLast kn t ht
            (fun d hd => hnov d ((List.dropLast_sublist nov).subset hd)) hkn p hp hpm
    · rw [if_neg hN] at h
      by_cases hK : r.transId ∈ K
      · rw [if_pos hK] at h
        cases hc : kn.getLast? with
        | none => rw [hc] at h; simp at h
        | some c =>
          rw [hc] at h
          rcases Option.map_eq_some'.mp h with ⟨t, ht, rfl⟩
          intro p hp hpm
          rcases List.mem_cons.mp hp with rfl | hp
          · exact hkn c (List.mem_of_getLast?_eq_some hc)
          · exact popAssign_pos N K rs nov kn.dropLast t ht
              hnov (fun d hd => hkn d ((List.dropLast_sublist kn).subset hd)) p hp hpm
      · rw [if_neg hK] at h
        rcases Option.map_eq_some'.mp h with ⟨t, ht, rfl⟩
        intro p hp hpm
        rcases List.mem_cons.mp hp with rfl | hp
        · exact absurd hpm (by simp [hN, hK])
        · exact popAssign_pos N K rs nov kn t ht hnov hkn p hp hpm

/-- Claim C7: in negative-binomial expression assignment every draw is floored
at one, so whenever the assignment completes, no transcript selected for
simulation (a member of `novel_trans` or of the truncated `known_trans`)
receives a `requested_counts` of exactly 0 — for arbitrary raw draw vectors,
hence in particular for 50 known transcripts drawn with
`nbn_known = 15, nbp_known = 0.5`. -/
theorem C7_floor (rows : List SimRow) (n g : ℕ) (rawK rawN : List ℕ)
    (l : List (String × ℕ × ℚ))
    (h : nbinomAssign rows n g rawK rawN = some l) :
    ∀ p ∈ l, (p.1 ∈ novelIds rows ∨ p.1 ∈ knownSel rows n g) → 1 ≤ p.2.1 := by
  unfold nbinomAssign at h
  rcases Option.map_eq_some'.mp h with ⟨l0, hl0, rfl⟩
  intro p hp hpm
  rcases List.mem_map.mp hp with ⟨q, hq, rfl⟩
  exact popAssign_pos (novelIds rows) (knownSel rows n g) rows (floorOne rawN)
    (floorOne rawK) l0 hl0 floorOne_pos floorOne_pos q hq (by simpa using hpm)

/-- Witness for C7_floor at a concrete input: one novel row with a single raw
draw of 0, floored to 1. -/
theorem C7_floor_witness :
    (nbinomAssign [SimRow.mk "a" "novel"] 1 0 [] [0] =
      some [("a", 1, tpmOf 1 ((((floorOne []).sum + (floorOne [0]).sum : ℕ)) : ℚ))]) ∧
    (∀ p ∈ [("a", 1, tpmOf 1 ((((floorOne []).sum + (floorOne [0]).sum : ℕ)) : ℚ))],
      (p.1 ∈ novelIds [SimRow.mk "a" "novel"] ∨
        p.1 ∈ knownSel [SimRow.mk "a" "novel"] 1 0) → 1 ≤ p.2.1) :=
  ⟨rfl, C7_floor [SimRow.mk "a" "novel"] 1 0 [] [0] _ rfl⟩

/-- Claim C8: given identical inputs and the same integer seed, two runs of
target selection followed by negative-binomial expression assignment produce
identical output tables: in the embedding every stochastic choice
(per-category shuffles, negative-binomial draws) is a deterministic function
of the single seed, exactly as `random.seed(seed)` / `numpy.random.seed(seed)`
make the Python streams. -/
theorem C8_determinism (rows₁ rows₂ : List IdxRow) (counts₁ counts₂ : List (String × ℤ))
    (s₁ s₂ n₁ n₂ : ℕ)
    (hr : rows₁ = rows₂) (hc : counts₁ = counts₂) (hs : s₁ = s₂) (hn : n₁ = n₂) :
    preparatoryRun rows₁ counts₁ s₁ n₁ = preparatoryRun rows₂ counts₂ s₂ n₂ := by
  subst hr
  subst hc
  subst hs
  subst hn
  rfl

/-- Witness for C8_determinism at a concrete input. -/
theorem C8_determinism_witness :
    preparatoryRun [IdxRow.mk "t1" "g1" "intergenic" "rg" "rt"] [("intergenic", 1)] 42 1 =
      preparatoryRun [IdxRow.mk "t1" "g1" "intergenic" "rg" "rt"] [("intergenic", 1)] 42 1 :=
  C8_determinism _ _ _ _ _ _ _ _ rfl rfl rfl rfl

lemma tokenAfter_none {key : String} : ∀ {ts : List String}, key ∉ ts → tokenAfter key ts = none
  | [], _ => rfl
  | t :: ts, h => by
    unfold tokenAfter
    rw [if_neg (fun e => h (by simp [← e]))]
    exact tokenAfter_none (fun hm => h (by simp [hm]))

/-- Claim C10: for a non-comment annotation line that carries a `gene_id` but
no `transcript_id` attribute, `getTransID` returns `None` (via its
`try/except`) instead of raising, and `modifyGTF` keeps the line in the output
unless the line's `gene_id` is in the target set (`None in target` is
`False`), so a line is never dropped merely for lacking a transcript id. -/
theorem C10_missing_transcript_id (line : String) (target : List String) (g : String)
    (hcomment : ¬ isCommentLine line = true)
    (htid : ¬ "transcript_id" ∈ pySplit line)
    (hg : getGeneID line = some g) :
    getTransID line = none ∧
    modifyGTF target [line] = some (if g ∈ target then [] else [line]) := by
  have htrans : getTransID line = none := by
    unfold getTransID
    rw [tokenAfter_none htid]
    rfl
  have hkeep : keepLine target line = some (!(target.contains g)) := by
    unfold keepLine
    rw [if_neg hcomment, hg, htrans]
    simp
  refine ⟨htrans, ?_⟩
  unfold modifyGTF
  rw [hkeep]
  by_cases hmem : g ∈ target
  · have hc : target.contains g = true := by simpa using hmem
    rw [hc, if_pos hmem]
    rfl
  · have hc : target.contains g = false := by simpa using hmem
    rw [hc, if_neg hmem]
    rfl

/-- Witness for C10_missing_transcript_id at a concrete GTF line. -/
theorem C10_missing_transcript_id_witness :
    ((¬ isCommentLine "chr1 x gene 1 2 . + . gene_id \"G1\";" = true) ∧
      (¬ "transcript_id" ∈ pySplit "chr1 x gene 1 2 . + . gene_id \"G1\";") ∧
      getGeneID "chr1 x gene 1 2 . + . gene_id \"G1\";" = some "G1") ∧
    (getTransID "chr1 x gene 1 2 . + . gene_id \"G1\";" = none ∧
      modifyGTF ["G1"] ["chr1 x gene 1 2 . + . gene_id \"G1\";"] =
        some (if "G1" ∈ ["G1"] then [] else ["chr1 x gene 1 2 . + . gene_id \"G1\";"])) :=
  ⟨⟨by decide, by decide, by decide⟩,
    C10_missing_transcript_id "chr1 x gene 1 2 . + . gene_id \"G1\";" ["G1"] "G1"
      (by decide) (by decide) (by decide)⟩

/-- Claim C1 (amended): after reconciliation every transcript keeps its row
(the output ids are exactly the input ids in order), a transcript absent from
the realized read tally gets `sim_counts = 0` — the `defaultdict` default, not
a distinct `absent` sentinel — and read ids that match no index row are
ignored (restricting the tally to the index's ids does not change the
result). -/
theorem C1_amended (rows : List String) (readIds : List String) :
    ((reconcileCounts rows readIds).map Prod.fst = rows) ∧
    (∀ t ∈ rows, ¬ t ∈ readIds → (t, SimCount.val 0) ∈ reconcileCounts rows readIds) ∧
    (reconcileCounts rows (readIds.filter (fun x => x ∈ rows)) =
      reconcileCounts rows readIds) := by
  refine ⟨?_, ?_, ?_⟩
  · unfold reconcileCounts
    rw [List.map_map]
    exact List.map_id'' (fun x => rfl) rows
  · intro t ht hnot
    unfold reconcileCounts
    refine List.mem_map.mpr ⟨t, ht, ?_⟩
    rw [List.count_eq_zero_of_not_mem hnot]
  · unfold reconcileCounts
    refine List.map_congr_left ?_
    intro t ht
    rw [List.count_filter (by simpa using ht)]

/-- Witness for C1_amended at a concrete input. -/
theorem C1_amended_witness :
    ((reconcileCounts ["t1"] ["x"]).map Prod.fst = ["t1"]) ∧
    (∀ t ∈ ["t1"], ¬ t ∈ ["x"] → (t, SimCount.val 0) ∈ reconcileCounts ["t1"] ["x"]) ∧
    (reconcileCounts ["t1"] (["x"].filter (fun x => x ∈ ["t1"])) =
      reconcileCounts ["t1"] ["x"]) :=
  C1_amended ["t1"] ["x"]

/-- Counterexample to claim C1 as stated: with index rows `t1, t2` and
realized reads `t1, x, x` (where `x` matches no row), the reconciled table
marks `t2` — which is absent from the tally — with the integer `0`, not with
the sentinel `absent`; the sentinel is distinct from `0`, so the claimed
marking does not happen. -/
theorem C1_counterexample :
    reconcileCounts ["t1", "t2"] ["t1", "x", "x"] =
      [("t1", SimCount.val 1), ("t2", SimCount.val 0)] ∧
    SimCount.val 0 ≠ SimCount.absent := by
  decide

/-- Claim C2, evaluated at the failing input: gene `G` has transcripts `t1`
and `t2`, both in the target set, yet `G` is not added to the final target
set: the removal loop deletes `t1`, the iterator then skips `t2`, and the
length-zero test fails. -/
theorem C2_code_eval :
    (∀ r ∈ [IdxRow.mk "t1" "G" "full-splice_match" "rg1" "r1",
            IdxRow.mk "t2" "G" "full-splice_match" "rg2" "r2"],
        r.transId ∈ ["t1", "t2"]) ∧
    "G" ∉ finalTargetSet
      [IdxRow.mk "t1" "G" "full-splice_match" "rg1" "r1",
       IdxRow.mk "t2" "G" "full-splice_match" "rg2" "r2"] ["t1", "t2"] := by
  decide

lemma sampleProbList_ten :
    sampleProbList [1, 2, 3, 4, 5, 6, 7, 8, 9, 10] =
      [1/10, 1/10, 1/10, 3/10, 1/2, 7/10, 9/10, 9/10, 9/10] := by
  have h1 : sortNat [1, 2, 3, 4, 5, 6, 7, 8, 9, 10] = [1, 2, 3, 4, 5, 6, 7, 8, 9, 10] := rfl
  have hpr : pyRound ((5 : ℚ)) = 5 := by norm_num [pyRound]
  have htn : (5 : ℤ).toNat = 5 := rfl
  have ht : List.take 5 [1, 2, 3, 4, 5, 6, 7, 8, 9, 10] = [1, 2, 3, 4, 5] := rfl
  have hd : List.drop 5 [1, 2, 3, 4, 5, 6, 7, 8, 9, 10] = [6, 7, 8, 9, 10] := rfl
  have hm1 : pyMedianNat [1, 2, 3, 4, 5] = 3 := by norm_num [pyMedianNat, sortNat, insertOrd]
  have hm2 : pyMedianNat [6, 7, 8, 9, 10] = 8 := by norm_num [pyMedianNat, sortNat, insertOrd]
  have hi1 : pyInt (2 : ℚ) = 2 := by norm_num [pyInt]
  have hi2 : pyInt (5 : ℚ) = 5 := by norm_num [pyInt]
  have hi3 : (2 : ℤ).toNat = 2 := rfl
  have hl : linspace (1/10) (9/10) 5 = [1/10, 3/10, 1/2, 7/10, 9/10] := by
    norm_num [linspace, List.range_succ]
  simp only [sampleProbList, h1]
  norm_num [hpr, htn, ht, hd, hm1, hm2, hi1, hi2, hi3, hl, List.replicate]

/-- Claim C3, evaluated at the failing input: for the empirical distribution
`[1..10]` (lower half-median 3, upper half-median 8, ramp
`[0.1, 0.1, 0.1, 0.3, 0.5, 0.7, 0.9, 0.9, 0.9]`), the probability the code
looks up for the minimum observed count `s = 1` is `prob[1 - (1+1)] =
prob[-1] = 0.9` — the last entry, by Python's negative-index wrap-around —
and not the flat `0.1` the claim prescribes below the lower half-median. -/
theorem C3_code_eval :
    probAtSample [1, 2, 3, 4, 5, 6, 7, 8, 9, 10] 1 = some (9/10) ∧
    ((9 : ℚ)/10) ≠ 1/10 := by
  constructor
  · have h1 : sortNat [1, 2, 3, 4, 5, 6, 7, 8, 9, 10] = [1, 2, 3, 4, 5, 6, 7, 8, 9, 10] := rfl
    simp only [probAtSample, h1, sampleProbList_ten]
    norm_num [pyIndex]
  · norm_num
